import Mathlib

/-!
Verification development for the S-expression pattern parser (src/parse.rs).

The parser converts textual S-expressions into pattern trees that are
generic over a pluggable operator language `L`.  Rust strings are modelled
as lists of characters (`Str`), Rust `Result` plus the possibility of a
`panic!`/`assert!` abort is modelled by the three-way outcome type
`PResult`, and the pluggable language bound `L : Language + FromStr` is
modelled by an explicit token parser `parseL : Str → Option L`.

Collaborators that the parser uses but whose code lives outside this
crate slice (the external `symbolic_expressions` reader, the
`QuestionMarkName` validator, the `Pattern`/`RecExpr` data types and the
`Pattern → RecExpr` downgrade) are modelled from the specification; each
such definition carries a doc comment saying so.
-/

/-- Rust string slices are modelled as lists of characters. -/
abbrev Str := List Char

/-- Whitespace test used by Rust `str::trim`; modelled by `Char.isWhitespace`. -/
def isWs (c : Char) : Bool := c.isWhitespace

/-- Embedding of Rust `str::trim`: drop whitespace from both ends. -/
def trimChars (s : Str) : Str :=
  ((s.dropWhile isWs).reverse.dropWhile isWs).reverse

/-- Embedding of Rust `str::ends_with`: `strEndsWith s t` holds when `t`
is a suffix of `s`. -/
def strEndsWith (s t : Str) : Bool := List.isSuffixOf t s

/-- The three-character suffix `...` that marks a zero-or-more wildcard. -/
def dots : Str := ['.', '.', '.']

/-- Modelled from the spec: `WildcardKind` (crate module `pattern`, not in
the source slice) — enumeration {Single, ZeroOrMore}. -/
inductive WildcardKind where
  | single : WildcardKind
  | zeroOrMore : WildcardKind
deriving DecidableEq

/-- Modelled from the spec: `Pattern<L>` (crate module `pattern`, not in the
source slice) — either a wildcard (validated name plus kind) or an ENode:
an operator of `L` with an ordered list of child patterns.  The spec licenses
plain exclusive tree ownership in place of the shared node bodies used by
the source. -/
inductive Pattern (L : Type) where
  | wildcard : Str → WildcardKind → Pattern L
  | enode : L → List (Pattern L) → Pattern L

/-- Modelled from the spec: the ground/wildcard-free expression tree
`RecExpr<L>` (crate module `expr`, not in the source slice) — same ENode
shape but with no wildcard variant possible. -/
inductive RecExpr (L : Type) where
  | node : L → List (RecExpr L) → RecExpr L

/-- Modelled from the spec: the generic tree produced by the external
`symbolic_expressions` reader — an atom string, an ordered list, or Empty. -/
inductive Sexp where
  | str : Str → Sexp
  | list : List Sexp → Sexp
  | empty : Sexp

/-- Modelled from the spec: parsing a token as a `QuestionMarkName`
(crate module `expr`, not in the source slice) — a symbol validated to be
non-empty and to start with the wildcard sigil `?`; the full token,
including any `...` suffix, is the stored name. -/
def parseQMark (s : Str) : Option Str :=
  if s ≠ [] ∧ s.head? = some '?' then some s else none

/-- Outcome of running a Rust function that returns `Result<α, ParseError>`
but may also abort via `panic!`/`assert!`: `ok` and `err` are the two
`Result` constructors (the `ParseError` payload is its message string),
`panic` is an abrupt process-level abort with the panic message. -/
inductive PResult (α : Type) where
  | ok : α → PResult α
  | err : Str → PResult α
  | panic : Str → PResult α

/-- Panic message of the whitespace/empty-atom defensive check in the
source (its literal message text is elided here). -/
def wsPanicMsg : Str := ("There is whitespace!").data

/-- Panic message of the list non-emptiness assertion in the source. -/
def assertPanicMsg : Str := ("assertion failed: vec is empty").data

/-- Error message for an atom that is neither a wildcard nor an operator:
the source formats the offending token into the message; the fixed text is
slightly simplified here and the offending token is kept. -/
def couldNotParseMsg (s : Str) : Str := ("could not parse: ").data ++ s

/-- Error message for a list head token that is not an operator of `L`;
the source formats the offending token into the message. -/
def badOpMsg (s : Str) : Str := ("bad op: ").data ++ s

/-- Error message for a non-atom in operator position; the source formats
the offending subtree into the message. -/
def expectedOpMsg (rendered : Str) : Str := ("expected op, got ").data ++ rendered

/-- Error message for an Empty node (`ParseError("empty!")`). -/
def emptyTermMsg : Str := ("empty!").data

/-- Modelled from the spec: the downgrade failure message — a descriptive
error naming the offending wildcard (crate module `pattern`, not in the
source slice). -/
def foundWildcardMsg (name : Str) : Str :=
  ("Found wildcard ").data ++ name ++ (" instead of expr term").data

mutual

/-- Rendering of a generic tree back to text, used only inside the
`expectedOpMsg` error message (the source formats the sexp via `Display`). -/
def renderSexp : Sexp → Str
  | .str s => s
  | .empty => []
  | .list xs => '(' :: renderSexpList xs ++ [')']

/-- Space-separated rendering of a list of generic trees. -/
def renderSexpList : List Sexp → Str
  | [] => []
  | [x] => renderSexp x
  | x :: y :: xs => renderSexp x ++ ' ' :: renderSexpList (y :: xs)

end

mutual

/-- Embedding of `parse_term` (src/parse.rs): convert one generic reader
node into a pattern node.  An atom is first validated against the
defensive whitespace check (a violation panics), then tried as a
`QuestionMarkName` (yielding a wildcard whose kind is ZeroOrMore exactly
when the name ends in `...`), then as an operator of `L` (yielding a leaf
ENode), else an error.  A list must be non-empty (`assert!`, a panic),
its head must be an atom parsing as an operator of `L`, and the remaining
elements become the children.  An Empty node is an error. -/
def parseTerm {L : Type} (parseL : Str → Option L) : Sexp → PResult (Pattern L)
  | .str s =>
    if trimChars s ≠ s ∨ s = [] then .panic wsPanicMsg
    else
      match parseQMark s with
      | some q =>
        .ok (.wildcard q (if strEndsWith q dots then .zeroOrMore else .single))
      | none =>
        match parseL s with
        | some t => .ok (.enode t [])
        | none => .err (couldNotParseMsg s)
  | .list [] => .panic assertPanicMsg
  | .list (first :: rest) =>
    match first with
    | .str s =>
      match parseL s with
      | some op =>
        match parseChildren parseL rest with
        | .ok cs => .ok (.enode op cs)
        | .err e => .err e
        | .panic m => .panic m
      | none => .err (badOpMsg s)
    | opSexp => .err (expectedOpMsg (renderSexp opSexp))
  | .empty => .err emptyTermMsg

/-- Embedding of `sexps.map(|s| parse_term(s)).collect::<Result<Vec<_>>>()`:
convert the children left to right, stopping at the first error or panic
(later elements are not evaluated, matching the lazy Rust iterator). -/
def parseChildren {L : Type} (parseL : Str → Option L) :
    List Sexp → PResult (List (Pattern L))
  | [] => .ok []
  | x :: xs =>
    match parseTerm parseL x with
    | .ok p =>
      match parseChildren parseL xs with
      | .ok ps => .ok (p :: ps)
      | .err e => .err e
      | .panic m => .panic m
    | .err e => .err e
    | .panic m => .panic m

end

mutual

/-- Modelled from the spec: the `Pattern → RecExpr` downgrade (the
`TryFrom` impl in crate module `pattern`, not in the source slice) — a
structural recursive walk that fails on the first wildcard encountered
(left to right), and otherwise reassembles the same tree. -/
def downgrade {L : Type} : Pattern L → Except Str (RecExpr L)
  | .wildcard name _ => .error (foundWildcardMsg name)
  | .enode op kids =>
    match downgradeList kids with
    | .ok rs => .ok (.node op rs)
    | .error e => .error e

/-- Downgrade of a child list, left to right, first error wins. -/
def downgradeList {L : Type} : List (Pattern L) → Except Str (List (RecExpr L))
  | [] => .ok []
  | p :: ps =>
    match downgrade p with
    | .ok r =>
      match downgradeList ps with
      | .ok rs => .ok (r :: rs)
      | .error e => .error e
    | .error e => .error e

end

mutual

/-- Re-embedding of a ground expression as a pattern, used to state that a
successful downgrade preserves shape and operator content exactly. -/
def toPattern {L : Type} : RecExpr L → Pattern L
  | .node op kids => .enode op (toPatternList kids)

/-- List version of `toPattern`. -/
def toPatternList {L : Type} : List (RecExpr L) → List (Pattern L)
  | [] => []
  | r :: rs => toPattern r :: toPatternList rs

end

mutual

/-- Does a pattern contain a wildcard anywhere in its tree? -/
def hasWildcard {L : Type} : Pattern L → Bool
  | .wildcard _ _ => true
  | .enode _ kids => hasWildcardList kids

/-- Does any pattern in the list contain a wildcard? -/
def hasWildcardList {L : Type} : List (Pattern L) → Bool
  | [] => false
  | p :: ps => hasWildcard p || hasWildcardList ps

end

mutual

/-- Does a generic tree contain an Empty node anywhere? -/
def containsEmpty : Sexp → Bool
  | .str _ => false
  | .empty => true
  | .list xs => containsEmptyList xs

/-- Does any generic tree in the list contain an Empty node? -/
def containsEmptyList : List Sexp → Bool
  | [] => false
  | x :: xs => containsEmpty x || containsEmptyList xs

end

/-- Token stream of the modelled reader: open and close brackets and atoms. -/
inductive Tok where
  | lp : Tok
  | rp : Tok
  | atom : Str → Tok

/-- Emit the pending atom accumulator (if non-empty) in front of a token list. -/
def flushTok (acc : Str) (ts : List Tok) : List Tok :=
  if acc = [] then ts else .atom acc :: ts

/-- Modelled from the spec: the tokeniser of the external
`symbolic_expressions` reader — brackets are single tokens, whitespace
separates, maximal runs of other characters form atom tokens.  `acc` holds
the characters of the atom currently being read. -/
def tokGo (acc : Str) : Str → List Tok
  | [] => flushTok acc []
  | c :: rest =>
    if c = '(' then flushTok acc (.lp :: tokGo [] rest)
    else if c = ')' then flushTok acc (.rp :: tokGo [] rest)
    else if isWs c then flushTok acc (tokGo [] rest)
    else tokGo (acc ++ [c]) rest

/-- Tokenise a whole string. -/
def tokenise (s : Str) : List Tok := tokGo [] s

/-- Lexical error message: recursion fuel exhausted (never hit with the
fuel supplied by `readSexp`). -/
def lexFuelMsg : Str := ("lexical error: input too deeply nested").data

/-- Lexical error message: input ended inside a list. -/
def lexEndMsg : Str := ("lexical error: unexpected end of input").data

/-- Lexical error message: a close bracket with no matching open bracket. -/
def lexRpMsg : Str := ("lexical error: unexpected close bracket").data

/-- Lexical error message: tokens remained after the first complete term. -/
def lexTrailingMsg : Str := ("lexical error: trailing tokens").data

mutual

/-- Modelled from the spec: the term parser of the reader — an atom is a leaf,
an open bracket starts a list that runs to the matching close bracket.
`fuel` only bounds recursion depth; `readSexp` supplies enough of it. -/
def parseOneTok : Nat → List Tok → Except Str (Sexp × List Tok)
  | 0, _ => .error lexFuelMsg
  | _ + 1, [] => .error lexEndMsg
  | _ + 1, .atom a :: rest => .ok (.str a, rest)
  | _ + 1, .rp :: _ => .error lexRpMsg
  | f + 1, .lp :: rest =>
    match parseManyTok f rest with
    | .ok (xs, rest2) => .ok (.list xs, rest2)
    | .error e => .error e

/-- Modelled from the spec: parse list elements up to the close bracket. -/
def parseManyTok : Nat → List Tok → Except Str (List Sexp × List Tok)
  | 0, _ => .error lexFuelMsg
  | _ + 1, [] => .error lexEndMsg
  | _ + 1, .rp :: rest => .ok ([], rest)
  | f + 1, ts =>
    match parseOneTok f ts with
    | .ok (x, rest2) =>
      match parseManyTok f rest2 with
      | .ok (xs, rest3) => .ok (x :: xs, rest3)
      | .error e => .error e
    | .error e => .error e

end

/-- Modelled from the spec: the external reader `parse_str` — text to one
of {Atom, List, Empty}, failing with a lexical error on malformed bracket
syntax; an input with no tokens at all yields Empty. -/
def readSexp (s : Str) : Except Str Sexp :=
  match tokenise s with
  | [] => .ok .empty
  | t :: ts =>
    match parseOneTok (2 * (t :: ts).length + 2) (t :: ts) with
    | .ok (x, []) => .ok x
    | .ok (_, _ :: _) => .error lexTrailingMsg
    | .error e => .error e

/-- Embedding of `impl FromStr for Pattern<L>` (src/parse.rs): trim the
input, run the external reader, surface its failure as a parse error,
otherwise run the term builder. -/
def patternFromStr {L : Type} (parseL : Str → Option L) (s : Str) :
    PResult (Pattern L) :=
  match readSexp (trimChars s) with
  | .ok sx => parseTerm parseL sx
  | .error e => .err e

/-- Embedding of `impl FromStr for RecExpr<L>` (src/parse.rs): parse as a
pattern, then downgrade, wrapping a downgrade failure into the same
`ParseError` type. -/
def recExprFromStr {L : Type} (parseL : Str → Option L) (s : Str) :
    PResult (RecExpr L) :=
  match patternFromStr parseL s with
  | .ok p =>
    match downgrade p with
    | .ok r => .ok r
    | .error e => .err e
  | .err e => .err e
  | .panic m => .panic m

/-- Concrete language instance: Rust `String`, whose `FromStr` is
infallible (the test of the crate itself uses `RecExpr<String>`). -/
def strLang (s : Str) : Option Str := some s

/-- Concrete language instance with a fallible token parser: only the
tokens `+`, `x`, `y` and `f` are operators. -/
def fLang (s : Str) : Option Str :=
  if s = ['+'] ∨ s = ['x'] ∨ s = ['y'] ∨ s = ['f'] then some s else none

/-- Structural induction principle for the nested `Sexp` type, with a
membership induction hypothesis for list elements. -/
theorem sexpInd (motive : Sexp → Prop)
    (hstr : ∀ s, motive (.str s))
    (hempty : motive .empty)
    (hlist : ∀ xs, (∀ x ∈ xs, motive x) → motive (.list xs)) :
    ∀ sx, motive sx
  | .str s => hstr s
  | .empty => hempty
  | .list xs =>
    hlist xs (fun x hx => sexpInd motive hstr hempty hlist x)
termination_by sx => sizeOf sx
decreasing_by
  have h := List.sizeOf_lt_of_mem hx
  simp only [Sexp.list.sizeOf_spec]
  omega

/-- Structural induction principle for the nested `Pattern` type, with a
membership induction hypothesis for child patterns. -/
theorem patternInd {L : Type} (motive : Pattern L → Prop)
    (hw : ∀ n k, motive (.wildcard n k))
    (he : ∀ op kids, (∀ p ∈ kids, motive p) → motive (.enode op kids)) :
    ∀ p, motive p
  | .wildcard n k => hw n k
  | .enode op kids =>
    he op kids (fun p hp => patternInd motive hw he p)
termination_by p => sizeOf p
decreasing_by
  have h := List.sizeOf_lt_of_mem hp
  simp only [Pattern.enode.sizeOf_spec]
  omega

/-- The `ends_with` test against `...` holds exactly when the last three
characters of the token are three dots. -/
theorem strEndsWith_dots_iff (s : Str) :
    strEndsWith s dots = true ↔ s.reverse.take 3 = dots := by
  have hrev : dots.reverse = dots := by decide
  rw [strEndsWith, List.isSuffixOf_iff_suffix]
  rw [show (dots <:+ s) ↔ (dots.reverse <+: s.reverse) from by
    rw [← List.reverse_suffix, List.reverse_reverse, List.reverse_reverse]]
  rw [List.prefix_iff_eq_take, hrev]
  rw [show dots.length = 3 from rfl]
  exact eq_comm

/-- Claim C1: every pre-trimmed atom token beginning with the sigil `?`
(hence a valid wildcard name) is classified by the term builder as a
Wildcard whose stored name is the full token including any `...` suffix,
and its kind is ZeroOrMore exactly when the last three characters of the
token are `...`, else Single. -/
theorem c1_wildcard_classification {L : Type} (parseL : Str → Option L)
    (s : Str) (hq : s.head? = some '?') (ht : trimChars s = s) :
    parseTerm parseL (.str s) =
      .ok (.wildcard s (if strEndsWith s dots then .zeroOrMore else .single)) ∧
    ((if strEndsWith s dots then WildcardKind.zeroOrMore else .single) =
        .zeroOrMore ↔ s.reverse.take 3 = dots) := by
  have hne : s ≠ [] := by
    intro h
    subst h
    simp at hq
  have hqm : parseQMark s = some s := by
    simp [parseQMark, hne, hq]
  constructor
  · have hcond : ¬(trimChars s ≠ s ∨ s = []) := by
      push_neg
      exact ⟨ht, hne⟩
    simp [parseTerm, hcond, hqm]
  · by_cases hdots : strEndsWith s dots = true
    · simp [hdots, (strEndsWith_dots_iff s).mp hdots]
    · have hnt : ¬(s.reverse.take 3 = dots) :=
        fun hc => hdots ((strEndsWith_dots_iff s).mpr hc)
      simp [hdots, hnt]

/-- Claim C1 witness: the token `?xs...` is classified as a ZeroOrMore
wildcard storing the full token. -/
theorem c1_witness :
    parseTerm strLang (.str (("?xs...").data)) =
      .ok (.wildcard (("?xs...").data)
        (if strEndsWith (("?xs...").data) dots then .zeroOrMore else .single)) ∧
    ((if strEndsWith (("?xs...").data) dots
        then WildcardKind.zeroOrMore else .single) = .zeroOrMore ↔
      (("?xs...").data).reverse.take 3 = dots) :=
  c1_wildcard_classification strLang (("?xs...").data) (by decide) (by decide)

/-- Claim C3 counterexample: parsing the text `()` does not return an
error value at all — the term builder hits the `assert!` on the empty
list and panics, so no `EmptyListError` reaches the caller. -/
theorem c3_counterexample :
    patternFromStr strLang (("()").data) = .panic assertPanicMsg ∧
    ∀ e, patternFromStr strLang (("()").data) ≠ .err e := by
  refine ⟨rfl, fun e h => ?_⟩
  rw [show patternFromStr strLang (("()").data) = .panic assertPanicMsg from rfl] at h
  exact PResult.noConfusion h

/-- Claim C3 amended: parsing `()` always fails, but through the
empty-list assertion panic (an abrupt abort), not a returned
`EmptyListError` value: the reader maps `()` to an empty list node, and
the term builder panics on every empty list node. -/
theorem c3_amended :
    readSexp (trimChars (("()").data)) = .ok (.list []) ∧
    (∀ (L : Type) (parseL : Str → Option L),
       parseTerm parseL (.list []) = .panic assertPanicMsg) ∧
    patternFromStr strLang (("()").data) = .panic assertPanicMsg :=
  ⟨rfl, fun _ _ => rfl, rfl⟩

/-- Claim C4 counterexample: an atom token with leading whitespace is not
rejected with a returned error value — the defensive check panics, an
abrupt process-level failure. -/
theorem c4_counterexample :
    parseTerm strLang (.str ((" x").data)) = .panic wsPanicMsg ∧
    ∀ e, parseTerm strLang (.str ((" x").data)) ≠ .err e := by
  refine ⟨rfl, fun e h => ?_⟩
  rw [show parseTerm strLang (.str ((" x").data)) = .panic wsPanicMsg from rfl] at h
  exact PResult.noConfusion h

/-- Claim C4 amended: every atom token that is empty or differs from its
own trim is rejected fatally by the whitespace panic — an abrupt abort
rather than a returned error value, and never a silent trim — for every
language parser. -/
theorem c4_amended {L : Type} (parseL : Str → Option L) (s : Str)
    (h : trimChars s ≠ s ∨ s = []) :
    parseTerm parseL (.str s) = .panic wsPanicMsg := by
  simp only [parseTerm]
  rw [if_pos h]

/-- Claim C4 witness: the amended statement evaluated on the atom
token with leading whitespace. -/
theorem c4_witness :
    parseTerm strLang (.str ((" y").data)) = .panic wsPanicMsg :=
  c4_amended strLang ((" y").data) (Or.inl (by decide))

/-- Claim C5 counterexample: with the `String` language of the crate itself
(whose token parser is infallible), the wildcard-shaped token `?x` in
operator position is accepted as an operator, contradicting the claim
that a token beginning with `?` is never accepted there. -/
theorem c5_counterexample :
    parseTerm strLang (.list [.str (("?x").data), .str (("y").data)]) =
      .ok (.enode (("?x").data) [.enode (("y").data) []]) := rfl

/-- Claim C5 amended: the first element of a list must be an atom and is
handed directly to the operator parser of the language — it is an error
exactly when that parser rejects it, so a token beginning with `?` is
accepted in operator position whenever the language parses it (no
wildcard check happens there); a nested list or an Empty node in operator
position is always an error. -/
theorem c5_amended {L : Type} (parseL : Str → Option L) :
    (∀ s rest, parseL s = none →
       parseTerm parseL (.list (.str s :: rest)) = .err (badOpMsg s)) ∧
    (∀ s rest o cs, parseL s = some o →
       parseChildren parseL rest = .ok cs →
       parseTerm parseL (.list (.str s :: rest)) = .ok (.enode o cs)) ∧
    (∀ l rest, parseTerm parseL (.list (.list l :: rest)) =
       .err (expectedOpMsg (renderSexp (.list l)))) ∧
    (∀ rest, parseTerm parseL (.list (.empty :: rest)) =
       .err (expectedOpMsg (renderSexp .empty))) := by
  refine ⟨fun s rest h => ?_, fun s rest o cs h1 h2 => ?_,
    fun l rest => rfl, fun rest => rfl⟩
  · simp [parseTerm, h]
  · simp [parseTerm, h1, h2]

/-- Claim C5 witness: the amended statement evaluated with the `String`
language on a `?`-token in operator position. -/
theorem c5_witness :
    parseTerm strLang (.list [.str (("?z").data), .str (("w").data)]) =
      .ok (.enode (("?z").data) [.enode (("w").data) []]) :=
  (c5_amended strLang).2.1 (("?z").data) [.str (("w").data)] (("?z").data)
    [.enode (("w").data) []] rfl rfl

/-- Claim C10: a list whose only element is an atom parsing as an
operator yields an ENode with that operator and no children — no minimum
child count is enforced; concretely, the text `(f)` parses to a
childless `f` node. -/
theorem c10_nullary_list {L : Type} (parseL : Str → Option L) :
    (∀ s o, parseL s = some o →
       parseTerm parseL (.list [.str s]) = .ok (.enode o [])) ∧
    patternFromStr fLang (("(f)").data) = .ok (.enode ['f'] []) := by
  refine ⟨fun s o h => ?_, rfl⟩
  simp [parseTerm, parseChildren, h]

/-- Claim C10 witness: the general statement evaluated on the operator
token `g` with the `String` language. -/
theorem c10_witness :
    parseTerm strLang (.list [.str (("g").data)]) =
      .ok (.enode (("g").data) []) :=
  (c10_nullary_list strLang).1 (("g").data) (("g").data) rfl

/-- If some pattern in a list contains a wildcard, downgrading the list
fails (given the claim for each element). -/
theorem downgradeList_err_exists {L : Type} (kids : List (Pattern L))
    (ih : ∀ p ∈ kids, hasWildcard p = true → ∃ e, downgrade p = .error e)
    (h : hasWildcardList kids = true) :
    ∃ e, downgradeList kids = .error e := by
  induction kids with
  | nil => simp [hasWildcardList] at h
  | cons p ps iih =>
    cases hd : downgrade p with
    | error e => exact ⟨e, by simp [downgradeList, hd]⟩
    | ok r =>
      cases hw : hasWildcard p with
      | true =>
        obtain ⟨e, he⟩ := ih p (by simp) hw
        rw [hd] at he
        exact Except.noConfusion he
      | false =>
        have hps : hasWildcardList ps = true := by
          simpa [hasWildcardList, hw] using h
        obtain ⟨e, he⟩ := iih (fun q hq => ih q (by simp [hq])) hps
        exact ⟨e, by simp [downgradeList, hd, he]⟩

/-- If no pattern in a list contains a wildcard, downgrading the list
succeeds and reassembles the same list (given the claim per element). -/
theorem downgradeList_ok_of {L : Type} (kids : List (Pattern L))
    (ih : ∀ p ∈ kids, hasWildcard p = false →
       ∃ r, downgrade p = .ok r ∧ toPattern r = p)
    (h : hasWildcardList kids = false) :
    ∃ rs, downgradeList kids = .ok rs ∧ toPatternList rs = kids := by
  induction kids with
  | nil => exact ⟨[], rfl, rfl⟩
  | cons p ps iih =>
    have hparts : hasWildcard p = false ∧ hasWildcardList ps = false := by
      simpa [hasWildcardList] using h
    obtain ⟨r, hr, hrp⟩ := ih p (by simp) hparts.1
    obtain ⟨rs, hrs, hrsp⟩ := iih (fun q hq => ih q (by simp [hq])) hparts.2
    exact ⟨r :: rs, by simp [downgradeList, hr, hrs],
      by simp [toPatternList, hrp, hrsp]⟩

/-- Claim C2: the downgrade to a concrete expression fails whenever the
pattern contains a wildcard anywhere in its tree, and on a wildcard-free
pattern it succeeds with a tree of identical shape and operator content
(re-embedding the result as a pattern gives back the input). -/
theorem c2_downgrade_totality {L : Type} (p : Pattern L) :
    (hasWildcard p = true → ∃ e, downgrade p = .error e) ∧
    (hasWildcard p = false → ∃ r, downgrade p = .ok r ∧ toPattern r = p) := by
  induction p using patternInd with
  | hw n k =>
    refine ⟨fun _ => ⟨foundWildcardMsg n, rfl⟩, fun h => ?_⟩
    simp [hasWildcard] at h
  | he op kids ih =>
    constructor
    · intro h
      have hl : hasWildcardList kids = true := by simpa [hasWildcard] using h
      obtain ⟨e, he'⟩ := downgradeList_err_exists kids (fun q hq => (ih q hq).1) hl
      exact ⟨e, by simp [downgrade, he']⟩
    · intro h
      have hl : hasWildcardList kids = false := by simpa [hasWildcard] using h
      obtain ⟨rs, hrs, hrsp⟩ := downgradeList_ok_of kids (fun q hq => (ih q hq).2) hl
      exact ⟨.node op rs, by simp [downgrade, hrs], by simp [toPattern, hrsp]⟩

/-- Claim C2 witness: the downgrade fails on a one-wildcard pattern and
succeeds, shape-preservingly, on a wildcard-free leaf. -/
theorem c2_witness :
    (∃ e, downgrade (Pattern.wildcard (("?a").data) .single : Pattern Str) =
      .error e) ∧
    (∃ r, downgrade (Pattern.enode (("x").data) [] : Pattern Str) = .ok r ∧
      toPattern r = .enode (("x").data) []) :=
  ⟨(c2_downgrade_totality _).1 rfl, (c2_downgrade_totality _).2 rfl⟩

/-- A successful child conversion has one output per input and converts
each child, in order. -/
theorem parseChildren_ok_get {L : Type} (parseL : Str → Option L) :
    ∀ (xs : List Sexp) (cs : List (Pattern L)),
      parseChildren parseL xs = .ok cs →
      cs.length = xs.length ∧
      ∀ i (h1 : i < xs.length) (h2 : i < cs.length),
        parseTerm parseL (xs.get ⟨i, h1⟩) = .ok (cs.get ⟨i, h2⟩) := by
  intro xs
  induction xs with
  | nil =>
    intro cs h
    have hcs : cs = [] := by simpa [parseChildren] using h.symm
    subst hcs
    exact ⟨rfl, fun i h1 _ => absurd h1 (by simp)⟩
  | cons x xs ih =>
    intro cs h
    cases hx : parseTerm parseL x with
    | ok p =>
      cases hxs : parseChildren parseL xs with
      | ok ps =>
        have hcs : cs = p :: ps := by simpa [parseChildren, hx, hxs] using h.symm
        subst hcs
        obtain ⟨hlen, hget⟩ := ih ps hxs
        refine ⟨by simp [hlen], fun i h1 h2 => ?_⟩
        cases i with
        | zero => simpa using hx
        | succ j =>
          simpa using hget j (by simpa using h1) (by simpa using h2)
      | err e => simp [parseChildren, hx, hxs] at h
      | panic m => simp [parseChildren, hx, hxs] at h
    | err e => simp [parseChildren, hx] at h
    | panic m => simp [parseChildren, hx] at h

/-- If the children before index `i` convert successfully and the child
at `i` fails with error `e`, the whole child conversion fails with `e`. -/
theorem parseChildren_err_first {L : Type} (parseL : Str → Option L) :
    ∀ (xs : List Sexp) (i : Nat) (e : Str) (hi : i < xs.length),
      (∀ j (hj : j < xs.length), j < i →
         ∃ c, parseTerm parseL (xs.get ⟨j, hj⟩) = .ok c) →
      parseTerm parseL (xs.get ⟨i, hi⟩) = .err e →
      parseChildren parseL xs = .err e := by
  intro xs
  induction xs with
  | nil => intro i e hi _ _; exact absurd hi (by simp)
  | cons x xs ih =>
    intro i e hi hok herr
    cases i with
    | zero =>
      simp only [List.get] at herr
      simp [parseChildren, herr]
    | succ j =>
      obtain ⟨c, hc⟩ := hok 0 (by simp) (Nat.succ_pos j)
      simp only [List.get] at hc herr
      have hrec := ih j e (by simpa using hi)
        (fun k hk hkj => by
          simpa using hok (k + 1) (by simpa using hk) (Nat.succ_lt_succ hkj))
        herr
      simp [parseChildren, hc, hrec]

/-- Claim C6: with a valid operator at the head of a list, the remaining
elements are converted left to right and collected in order — a
successful conversion yields an ENode whose children are the in-order
conversions of the elements — and if the child at index `i` is the first
to fail, the whole node conversion fails with exactly the error of that child
and no pattern is returned. -/
theorem c6_children_order_first_error {L : Type} (parseL : Str → Option L)
    (s : Str) (o : L) (rest : List Sexp) (hop : parseL s = some o) :
    (∀ cs, parseChildren parseL rest = .ok cs →
       parseTerm parseL (.list (.str s :: rest)) = .ok (.enode o cs) ∧
       cs.length = rest.length ∧
       ∀ i (h1 : i < rest.length) (h2 : i < cs.length),
         parseTerm parseL (rest.get ⟨i, h1⟩) = .ok (cs.get ⟨i, h2⟩)) ∧
    (∀ i e (hi : i < rest.length),
       (∀ j (hj : j < rest.length), j < i →
          ∃ c, parseTerm parseL (rest.get ⟨j, hj⟩) = .ok c) →
       parseTerm parseL (rest.get ⟨i, hi⟩) = .err e →
       parseTerm parseL (.list (.str s :: rest)) = .err e) := by
  constructor
  · intro cs hcs
    obtain ⟨hlen, hget⟩ := parseChildren_ok_get parseL rest cs hcs
    exact ⟨by simp [parseTerm, hop, hcs], hlen, hget⟩
  · intro i e hi hok herr
    have hch := parseChildren_err_first parseL rest i e hi hok herr
    simp [parseTerm, hop, hch]

/-- Claim C6 witness: under the restricted language, in `(+ x 1 zzz)` the
children are scanned left to right and the node fails with the error of
the first bad child `1`, even though a later child is also bad. -/
theorem c6_witness :
    parseTerm fLang
      (.list [.str (("+").data), .str (("x").data), .str (("1").data),
        .str (("zzz").data)]) =
      .err (couldNotParseMsg (("1").data)) :=
  (c6_children_order_first_error fLang (("+").data) (("+").data)
    [.str (("x").data), .str (("1").data), .str (("zzz").data)] rfl).2
    1 (couldNotParseMsg (("1").data)) (by decide)
    (fun j hj hlt => by
      have hj0 : j = 0 := by omega
      subst hj0
      exact ⟨.enode (("x").data) [], rfl⟩)
    rfl

/-- Dropping while a predicate holds skips over a leading block that
satisfies the predicate everywhere. -/
theorem dropWhile_append_all {α : Type} (p : α → Bool) (a b : List α)
    (h : ∀ c ∈ a, p c = true) :
    List.dropWhile p (a ++ b) = List.dropWhile p b := by
  induction a with
  | nil => rfl
  | cons x xs ih =>
    simp only [List.cons_append, List.dropWhile_cons, h x (by simp), if_pos]
    exact ih (fun c hc => h c (by simp [hc]))

/-- If dropping from the front of `a` leaves something, appending `b`
does not change what is dropped. -/
theorem dropWhile_append_ne_nil {α : Type} (p : α → Bool) (a b : List α)
    (h : List.dropWhile p a ≠ []) :
    List.dropWhile p (a ++ b) = List.dropWhile p a ++ b := by
  induction a with
  | nil => simp at h
  | cons x xs ih =>
    by_cases hx : p x = true
    · simp only [List.dropWhile_cons, hx, if_pos] at h
      simp only [List.cons_append, List.dropWhile_cons, hx, if_pos]
      exact ih h
    · have hx' : p x = false := by simpa using hx
      simp [List.dropWhile_cons, hx']

/-- Trimming ignores whatever whitespace surrounds the text. -/
theorem trimChars_pad (w1 w2 s : Str)
    (h1 : ∀ c ∈ w1, isWs c = true) (h2 : ∀ c ∈ w2, isWs c = true) :
    trimChars (w1 ++ s ++ w2) = trimChars s := by
  unfold trimChars
  rw [List.append_assoc, dropWhile_append_all isWs w1 _ h1]
  by_cases hs : List.dropWhile isWs s = []
  · have hall : ∀ c ∈ s, isWs c = true := by
      intro c hc
      exact List.dropWhile_eq_nil_iff.mp hs c hc
    rw [dropWhile_append_all isWs s _ hall,
      List.dropWhile_eq_nil_iff.mpr (fun c hc => h2 c hc), hs]
  · rw [dropWhile_append_ne_nil isWs s w2 hs, List.reverse_append,
      dropWhile_append_all isWs w2.reverse _
        (fun c hc => h2 c (List.mem_reverse.mp hc))]

/-- Claim C7: parsing is invariant under extra outer whitespace — for
every input, surrounding it with whitespace yields the same
pattern-or-error result, because the entry point trims before reading. -/
theorem c7_outer_whitespace {L : Type} (parseL : Str → Option L)
    (w1 w2 s : Str)
    (h1 : ∀ c ∈ w1, isWs c = true) (h2 : ∀ c ∈ w2, isWs c = true) :
    patternFromStr parseL (w1 ++ s ++ w2) = patternFromStr parseL s := by
  unfold patternFromStr
  rw [trimChars_pad w1 w2 s h1 h2]

/-- Claim C7 witness: padding `(f x)` with concrete spaces and a newline
does not change the parse result. -/
theorem c7_witness :
    patternFromStr fLang ((("  ").data) ++ (("(f x)").data) ++ (("\n").data)) =
      patternFromStr fLang (("(f x)").data) :=
  c7_outer_whitespace fLang (("  ").data) (("\n").data) (("(f x)").data)
    (by decide) (by decide)

/-- A list whose elements of a set all convert successfully has every
element converting successfully. -/
theorem parseChildren_ok_mem {L : Type} (parseL : Str → Option L) :
    ∀ (xs : List Sexp) (ps : List (Pattern L)),
      parseChildren parseL xs = .ok ps →
      ∀ x ∈ xs, ∃ p, parseTerm parseL x = .ok p := by
  intro xs
  induction xs with
  | nil => intro ps _ x hx; exact absurd hx (by simp)
  | cons y ys ih =>
    intro ps h x hx
    cases hy : parseTerm parseL y with
    | ok p =>
      cases hys : parseChildren parseL ys with
      | ok qs =>
        rcases List.mem_cons.mp hx with hx0 | hxs
        · exact ⟨p, hx0 ▸ hy⟩
        · exact ih qs hys x hxs
      | err e => simp [parseChildren, hy, hys] at h
      | panic m => simp [parseChildren, hy, hys] at h
    | err e => simp [parseChildren, hy] at h
    | panic m => simp [parseChildren, hy] at h

/-- An Empty node somewhere in a list of trees is an Empty node in one of
its members. -/
theorem containsEmptyList_iff (xs : List Sexp) :
    containsEmptyList xs = true ↔ ∃ x ∈ xs, containsEmpty x = true := by
  induction xs with
  | nil => simp [containsEmptyList]
  | cons x xs ih => simp [containsEmptyList, ih]

/-- Claim C8: parsing the empty text fails with the empty-term error, the
term builder maps an Empty node to that same error, and a generic tree
containing an Empty node anywhere never converts successfully. -/
theorem c8_empty_rejection {L : Type} (parseL : Str → Option L) :
    patternFromStr parseL [] = .err emptyTermMsg ∧
    parseTerm parseL Sexp.empty = .err emptyTermMsg ∧
    ∀ sx, containsEmpty sx = true → ∀ p, parseTerm parseL sx ≠ .ok p := by
  refine ⟨rfl, rfl, ?_⟩
  intro sx
  induction sx using sexpInd with
  | hstr s => intro h; simp [containsEmpty] at h
  | hempty =>
    intro _ p h
    rw [show parseTerm parseL Sexp.empty = .err emptyTermMsg from rfl] at h
    exact PResult.noConfusion h
  | hlist xs ih =>
    intro hc p hok
    cases xs with
    | nil => simp [containsEmpty, containsEmptyList] at hc
    | cons first rest =>
      cases first with
      | str s =>
        have hr : containsEmptyList rest = true := by
          simpa [containsEmpty, containsEmptyList] using hc
        cases hls : parseL s with
        | none => simp [parseTerm, hls] at hok
        | some op =>
          cases hch : parseChildren parseL rest with
          | ok cs =>
            obtain ⟨x, hx, hxe⟩ := (containsEmptyList_iff rest).mp hr
            obtain ⟨q, hq⟩ := parseChildren_ok_mem parseL rest cs hch x hx
            exact ih x (by simp [hx]) hxe q hq
          | err e => simp [parseTerm, hls, hch] at hok
          | panic m => simp [parseTerm, hls, hch] at hok
      | list l => simp [parseTerm] at hok
      | empty => simp [parseTerm] at hok

/-- Claim C8 witness: the tree with an Empty node in child position never
converts to a pattern. -/
theorem c8_witness :
    parseTerm strLang (.list [.str (("f").data), .empty]) ≠
      .ok (.enode (("f").data) []) :=
  (c8_empty_rejection strLang).2.2 (.list [.str (("f").data), .empty]) rfl
    (.enode (("f").data) [])

/-- Errors surfaced by a child-list conversion never start with `F`,
given that per-child errors never do. -/
theorem parseChildren_err_head_of {L : Type} (parseL : Str → Option L)
    (xs : List Sexp)
    (ih : ∀ x ∈ xs, ∀ e, parseTerm parseL x = .err e → e.head? ≠ some 'F') :
    ∀ e, parseChildren parseL xs = .err e → e.head? ≠ some 'F' := by
  induction xs with
  | nil => intro e h; simp [parseChildren] at h
  | cons x xs iih =>
    intro e h
    cases hx : parseTerm parseL x with
    | ok p =>
      cases hxs : parseChildren parseL xs with
      | ok ps => simp [parseChildren, hx, hxs] at h
      | panic m => simp [parseChildren, hx, hxs] at h
      | err e2 =>
        have he : e = e2 := by simpa [parseChildren, hx, hxs] using h.symm
        subst he
        exact iih (fun y hy => ih y (by simp [hy])) e hxs
    | err e2 =>
      have he : e = e2 := by simpa [parseChildren, hx] using h.symm
      subst he
      exact ih x (by simp) e hx
    | panic m => simp [parseChildren, hx] at h

/-- Every error message the term builder can return starts with one of
`c`, `b`, `e` — never with `F`, the downgrade marker. -/
theorem parseTerm_err_head {L : Type} (parseL : Str → Option L) :
    ∀ sx e, parseTerm parseL sx = .err e → e.head? ≠ some 'F' := by
  intro sx
  induction sx using sexpInd with
  | hstr s =>
    intro e h
    simp only [parseTerm] at h
    split at h
    · exact PResult.noConfusion h
    · split at h
      · exact PResult.noConfusion h
      · split at h
        · exact PResult.noConfusion h
        · have he : e = couldNotParseMsg s := by simpa using h.symm
          subst he
          intro hc
          rw [show (couldNotParseMsg s).head? = some 'c' from rfl] at hc
          exact absurd hc (by decide)
  | hempty =>
    intro e h
    have he : e = emptyTermMsg := by simpa [parseTerm] using h.symm
    subst he
    intro hc
    exact absurd hc (by decide)
  | hlist xs ih =>
    intro e h
    cases xs with
    | nil => simp [parseTerm] at h
    | cons first rest =>
      cases first with
      | str s =>
        cases hls : parseL s with
        | none =>
          have he : e = badOpMsg s := by simpa [parseTerm, hls] using h.symm
          subst he
          intro hc
          rw [show (badOpMsg s).head? = some 'b' from rfl] at hc
          exact absurd hc (by decide)
        | some op =>
          cases hch : parseChildren parseL rest with
          | ok cs => simp [parseTerm, hls, hch] at h
          | panic m => simp [parseTerm, hls, hch] at h
          | err e2 =>
            have he : e = e2 := by simpa [parseTerm, hls, hch] using h.symm
            subst he
            exact parseChildren_err_head_of parseL rest
              (fun x hx => ih x (by simp [hx])) e hch
      | list l =>
        have he : e = expectedOpMsg (renderSexp (.list l)) := by
          simpa [parseTerm] using h.symm
        subst he
        intro hc
        rw [show (expectedOpMsg (renderSexp (.list l))).head? = some 'e'
          from rfl] at hc
        exact absurd hc (by decide)
      | empty =>
        have he : e = expectedOpMsg (renderSexp .empty) := by
          simpa [parseTerm] using h.symm
        subst he
        intro hc
        rw [show (expectedOpMsg (renderSexp .empty)).head? = some 'e'
          from rfl] at hc
        exact absurd hc (by decide)

/-- Every error of the token parser of the modelled reader is one of the three
fixed lexical messages. -/
theorem parseTok_err :
    ∀ f : Nat,
      (∀ ts e, parseOneTok f ts = .error e →
         e = lexFuelMsg ∨ e = lexEndMsg ∨ e = lexRpMsg) ∧
      (∀ ts e, parseManyTok f ts = .error e →
         e = lexFuelMsg ∨ e = lexEndMsg ∨ e = lexRpMsg) := by
  intro f
  induction f with
  | zero =>
    refine ⟨fun ts e h => Or.inl ?_, fun ts e h => Or.inl ?_⟩
    · simpa [parseOneTok] using h.symm
    · simpa [parseManyTok] using h.symm
  | succ f ih =>
    constructor
    · intro ts e h
      match ts with
      | [] => exact Or.inr (Or.inl (by simpa [parseOneTok] using h.symm))
      | .atom a :: rest => simp [parseOneTok] at h
      | .rp :: rest => exact Or.inr (Or.inr (by simpa [parseOneTok] using h.symm))
      | .lp :: rest =>
        cases hm : parseManyTok f rest with
        | ok pr => simp [parseOneTok, hm] at h
        | error e2 =>
          have he : e = e2 := by simpa [parseOneTok, hm] using h.symm
          exact he ▸ ih.2 rest e2 hm
    · intro ts e h
      match ts with
      | [] => exact Or.inr (Or.inl (by simpa [parseManyTok] using h.symm))
      | .rp :: rest => simp [parseManyTok] at h
      | .lp :: rest =>
        cases ho : parseOneTok f (.lp :: rest) with
        | error e2 =>
          have he : e = e2 := by simpa [parseManyTok, ho] using h.symm
          exact he ▸ ih.1 _ e2 ho
        | ok xr =>
          obtain ⟨x, rest2⟩ := xr
          cases hm : parseManyTok f rest2 with
          | ok pr => simp [parseManyTok, ho, hm] at h
          | error e2 =>
            have he : e = e2 := by simpa [parseManyTok, ho, hm] using h.symm
            exact he ▸ ih.2 rest2 e2 hm
      | .atom a :: rest =>
        cases ho : parseOneTok f (.atom a :: rest) with
        | error e2 =>
          have he : e = e2 := by simpa [parseManyTok, ho] using h.symm
          exact he ▸ ih.1 _ e2 ho
        | ok xr =>
          obtain ⟨x, rest2⟩ := xr
          cases hm : parseManyTok f rest2 with
          | ok pr => simp [parseManyTok, ho, hm] at h
          | error e2 =>
            have he : e = e2 := by simpa [parseManyTok, ho, hm] using h.symm
            exact he ▸ ih.2 rest2 e2 hm

/-- Every error message of the modelled reader starts with `l`. -/
theorem readSexp_err_head (s e : Str) (h : readSexp s = .error e) :
    e.head? = some 'l' := by
  unfold readSexp at h
  split at h
  · exact Except.noConfusion h
  · split at h
    · exact Except.noConfusion h
    · have he : e = lexTrailingMsg := by simpa using h.symm
      subst he
      rfl
    · rename_i e2 heq
      have he : e = e2 := by simpa using h.symm
      subst he
      rcases (parseTok_err _).1 _ _ heq with h1 | h1 | h1 <;> subst h1 <;> rfl

/-- Errors of the parse stage (reader plus term builder) never start
with `F`. -/
theorem patternFromStr_err_head {L : Type} (parseL : Str → Option L)
    (s e : Str) (h : patternFromStr parseL s = .err e) :
    e.head? ≠ some 'F' := by
  unfold patternFromStr at h
  cases hr : readSexp (trimChars s) with
  | ok sx =>
    rw [hr] at h
    exact parseTerm_err_head parseL sx e h
  | error e2 =>
    have he : e = e2 := by simpa [hr] using h.symm
    subst he
    intro hc
    rw [readSexp_err_head _ _ hr] at hc
    exact absurd hc (by decide)

/-- Errors of a child-list downgrade start with `F`, given that per-child
downgrade errors do. -/
theorem downgradeList_err_head_of {L : Type} (kids : List (Pattern L))
    (ih : ∀ p ∈ kids, ∀ e, downgrade p = .error e → e.head? = some 'F') :
    ∀ e, downgradeList kids = .error e → e.head? = some 'F' := by
  induction kids with
  | nil => intro e h; simp [downgradeList] at h
  | cons p ps iih =>
    intro e h
    cases hp : downgrade p with
    | ok r =>
      cases hps : downgradeList ps with
      | ok rs => simp [downgradeList, hp, hps] at h
      | error e2 =>
        have he : e = e2 := by simpa [downgradeList, hp, hps] using h.symm
        subst he
        exact iih (fun q hq => ih q (by simp [hq])) e hps
    | error e2 =>
      have he : e = e2 := by simpa [downgradeList, hp] using h.symm
      subst he
      exact ih p (by simp) e hp

/-- Every downgrade error names a wildcard and starts with `F`. -/
theorem downgrade_err_head {L : Type} :
    ∀ (p : Pattern L) (e : Str), downgrade p = .error e → e.head? = some 'F' := by
  intro p
  induction p using patternInd with
  | hw n k =>
    intro e h
    have he : e = foundWildcardMsg n := by simpa [downgrade] using h.symm
    subst he
    rfl
  | he op kids ih =>
    intro e h
    cases hk : downgradeList kids with
    | ok rs => simp [downgrade, hk] at h
    | error e2 =>
      have he : e = e2 := by simpa [downgrade, hk] using h.symm
      subst he
      exact downgradeList_err_head_of kids ih e hk

/-- Claim C9: a failure of Parse-as-ConcreteExpr is attributable to
exactly one stage, and the two stages are distinguishable from the error
alone — it is either a parse-stage failure (whose message never starts
with `F`) passed through unchanged, or a downgrade failure on the
successfully parsed pattern (whose message always starts with `F`). -/
theorem c9_stage_distinct {L : Type} (parseL : Str → Option L)
    (s e : Str) (h : recExprFromStr parseL s = .err e) :
    (patternFromStr parseL s = .err e ∧ e.head? ≠ some 'F') ∨
    (∃ p, patternFromStr parseL s = .ok p ∧ downgrade p = .error e ∧
       e.head? = some 'F') := by
  unfold recExprFromStr at h
  cases hp : patternFromStr parseL s with
  | ok p =>
    rw [hp] at h
    cases hd : downgrade p with
    | ok r => simp [hd] at h
    | error e2 =>
      have he : e = e2 := by simpa [hd] using h.symm
      subst he
      exact Or.inr ⟨p, rfl, hd, downgrade_err_head p e hd⟩
  | err e2 =>
    rw [hp] at h
    have he : e = e2 := by simpa using h.symm
    subst he
    exact Or.inl ⟨rfl, patternFromStr_err_head parseL s e hp⟩
  | panic m =>
    rw [hp] at h
    simp at h

/-- Claim C9 witness: on `(f ?a)` the concrete-expression parse fails in
the downgrade stage, recognisably from the error message. -/
theorem c9_witness :
    (patternFromStr strLang (("(f ?a)").data) =
        .err (foundWildcardMsg (("?a").data)) ∧
      (foundWildcardMsg (("?a").data)).head? ≠ some 'F') ∨
    (∃ p, patternFromStr strLang (("(f ?a)").data) = .ok p ∧
      downgrade p = .error (foundWildcardMsg (("?a").data)) ∧
      (foundWildcardMsg (("?a").data)).head? = some 'F') :=
  c9_stage_distinct strLang (("(f ?a)").data) (foundWildcardMsg (("?a").data)) rfl
